import Mathlib

set_option maxRecDepth 8000

/-!
Verification development for the jirarecon search-fetch-scan pipeline
(src/jirarecon.py). The pipeline is shallowly embedded: Python JSON values
become the inductive type Json, the HTTP transport becomes a function
returning an optional response (none models a raised request exception),
raising Python code becomes Except-valued functions, and the regular
expression engine of the re module is embedded as a small backtracking
matcher over an abstract syntax tree together with a parser for the
pattern subset used by the rules in scope. Character classes such as
backslash-w are modelled over ASCII; the source relies on Unicode-aware
classes, which agree with this model on all ASCII inputs used below.
-/

/-- Python JSON values as decoded by response.json() in src/jirarecon.py. -/
inductive Json where
  | null
  | bool (b : Bool)
  | num (n : Int)
  | str (s : String)
  | arr (xs : List Json)
  | obj (fields : List (String × Json))

mutual
/-- Structural equality test for Json, mirroring Python value equality. -/
def Json.beq : Json → Json → Bool
  | .null, .null => true
  | .bool a, .bool b => a == b
  | .num a, .num b => a == b
  | .str a, .str b => a == b
  | .arr a, .arr b => Json.beqL a b
  | .obj a, .obj b => Json.beqO a b
  | _, _ => false
/-- Elementwise equality of Json lists. -/
def Json.beqL : List Json → List Json → Bool
  | [], [] => true
  | x :: xs, y :: ys => Json.beq x y && Json.beqL xs ys
  | _, _ => false
/-- Elementwise equality of Json object field lists. -/
def Json.beqO : List (String × Json) → List (String × Json) → Bool
  | [], [] => true
  | (k, v) :: xs, (k2, v2) :: ys => k == k2 && Json.beq v v2 && Json.beqO xs ys
  | _, _ => false
end

mutual
theorem Json.eq_of_beq : ∀ {a b : Json}, Json.beq a b = true → a = b
  | .null, .null, _ => rfl
  | .bool _, .bool _, h => by simp [Json.beq] at h; simp [h]
  | .num _, .num _, h => by simp [Json.beq] at h; simp [h]
  | .str _, .str _, h => by simp [Json.beq] at h; simp [h]
  | .arr _, .arr _, h => by
      simp only [Json.beq] at h
      exact congrArg Json.arr (Json.eqL_of_beqL h)
  | .obj _, .obj _, h => by
      simp only [Json.beq] at h
      exact congrArg Json.obj (Json.eqO_of_beqO h)
theorem Json.eqL_of_beqL : ∀ {a b : List Json}, Json.beqL a b = true → a = b
  | [], [], _ => rfl
  | _ :: _, _ :: _, h => by
      simp only [Json.beqL, Bool.and_eq_true] at h
      rw [Json.eq_of_beq h.1, Json.eqL_of_beqL h.2]
theorem Json.eqO_of_beqO : ∀ {a b : List (String × Json)}, Json.beqO a b = true → a = b
  | [], [], _ => rfl
  | (_, _) :: _, (_, _) :: _, h => by
      simp only [Json.beqO, Bool.and_eq_true] at h
      rw [Json.eq_of_beq h.1.2, Json.eqO_of_beqO h.2, beq_iff_eq.mp h.1.1]
end

mutual
theorem Json.beq_refl : ∀ a : Json, Json.beq a a = true
  | .null => rfl
  | .bool _ => by simp [Json.beq]
  | .num _ => by simp [Json.beq]
  | .str _ => by simp [Json.beq]
  | .arr a => by simp only [Json.beq]; exact Json.beqL_refl a
  | .obj a => by simp only [Json.beq]; exact Json.beqO_refl a
theorem Json.beqL_refl : ∀ a : List Json, Json.beqL a a = true
  | [] => rfl
  | x :: xs => by
      simp only [Json.beqL, Bool.and_eq_true]
      exact ⟨Json.beq_refl x, Json.beqL_refl xs⟩
theorem Json.beqO_refl : ∀ a : List (String × Json), Json.beqO a a = true
  | [] => rfl
  | (_, v) :: xs => by
      simp only [Json.beqO, Bool.and_eq_true]
      exact ⟨⟨by simp, Json.beq_refl v⟩, Json.beqO_refl xs⟩
end

instance : DecidableEq Json := fun a b =>
  if h : Json.beq a b = true then .isTrue (Json.eq_of_beq h)
  else .isFalse (fun he => h (he ▸ Json.beq_refl a))

instance : BEq Json := ⟨fun a b => decide (a = b)⟩

instance : LawfulBEq Json where
  eq_of_beq h := of_decide_eq_true h
  rfl := by simp [BEq.beq]

/-- Python truthiness of a JSON value, as used by statements such as
the check if description: in check_credentials. -/
def pyTruthy : Json → Bool
  | .null => false
  | .bool b => b
  | .num n => n != 0
  | .str s => !s.isEmpty
  | .arr xs => !xs.isEmpty
  | .obj fs => !fs.isEmpty

mutual
/-- Python repr of a JSON value; needed because collect_urls_and_ips calls
str on a list of comments, which yields the repr of its elements. Strings
are rendered between single quotes, the common case for Python repr. -/
def pyRepr : Json → String
  | .null => "None"
  | .bool true => "True"
  | .bool false => "False"
  | .num n => toString n
  | .str s => "\x27" ++ s ++ "\x27"
  | .arr xs => "[" ++ pyReprL xs ++ "]"
  | .obj fs => "\x7b" ++ pyReprO fs ++ "\x7d"
/-- Comma-separated reprs of the elements of a Python list. -/
def pyReprL : List Json → String
  | [] => ""
  | [x] => pyRepr x
  | x :: xs => pyRepr x ++ ", " ++ pyReprL xs
/-- Comma-separated reprs of the entries of a Python dict. -/
def pyReprO : List (String × Json) → String
  | [] => ""
  | [(k, v)] => "\x27" ++ k ++ "\x27: " ++ pyRepr v
  | (k, v) :: fs => "\x27" ++ k ++ "\x27: " ++ pyRepr v ++ ", " ++ pyReprO fs
end

/-- Python str of a JSON value: identity on strings, repr otherwise. -/
def pyStr : Json → String
  | .str s => s
  | j => pyRepr j

/-- Python dict.get with a default; raises (error) when the receiver is not
a dict, matching an AttributeError on other values. -/
def pyGet (j : Json) (key : String) (dflt : Json) : Except Unit Json :=
  match j with
  | .obj fs => .ok ((fs.lookup key).getD dflt)
  | _ => .error ()

/-- Python subscript j[key] with a string key; raises (error) on a missing
key or on any non-dict receiver, matching KeyError and TypeError. -/
def pyIndex (j : Json) (key : String) : Except Unit Json :=
  match j with
  | .obj fs =>
      match fs.lookup key with
      | some v => .ok v
      | none => .error ()
  | _ => .error ()

/-- Substring test on character lists, used for the Python expression
key in s when s is a string. -/
def charsInfix (needle : List Char) : List Char → Bool
  | [] => needle.isEmpty
  | c :: cs => needle.isPrefixOf (c :: cs) || charsInfix needle cs

/-- Python membership test key in j: key lookup for dicts, element equality
for lists, substring test for strings; raises (error) on other values. -/
def pyContains (key : String) (j : Json) : Except Unit Bool :=
  match j with
  | .obj fs => .ok (fs.any (fun kv => kv.1 == key))
  | .arr xs => .ok (xs.any (fun x => x == Json.str key))
  | .str s => .ok (charsInfix key.data s.data)
  | _ => .error ()

/-- Python iteration over a value: elements of a list, keys of a dict,
one-character strings of a string; raises (error) on non-iterables. -/
def pyIter (j : Json) : Except Unit (List Json) :=
  match j with
  | .arr xs => .ok xs
  | .obj fs => .ok (fs.map (fun kv => Json.str kv.1))
  | .str s => .ok (s.data.map (fun c => Json.str (String.mk [c])))
  | _ => .error ()

/-- Python comparison n >= j for a nonnegative integer n against a decoded
JSON value, as in the pagination check start_at >= data.get(..); numbers
and booleans compare, anything else raises TypeError (error). -/
def pyGe (n : Nat) (j : Json) : Except Unit Bool :=
  match j with
  | .num m => .ok (decide ((n : Int) ≥ m))
  | .bool b => .ok (decide ((n : Int) ≥ (if b then (1 : Int) else 0)))
  | _ => .error ()

/-- Python expression a or b restricted to the value positions used in
collect_urls_and_ips: the left value when truthy, otherwise the right. -/
def pyOr (a b : Json) : Json :=
  if pyTruthy a then a else b

/-- Observable outcome of one HTTP request: the status code together with
the result of response.json(), where none models a body that fails to
decode. A transport returning none for the whole response models a raised
request exception. -/
structure HttpResponse where
  status : Int
  body : Option Json

/-- Issue details record built by fetch_issue_data: the three keys summary,
description and comments are always present; their values keep the dynamic
typing of the source. -/
structure Details where
  summary : Json
  description : Json
  comments : List Json
deriving DecidableEq

/-- Default details record {"summary": "N/A", "description": "", "comments": []}
from line 483 of src/jirarecon.py. -/
def detailsDefault : Details :=
  ⟨Json.str "N/A", Json.str "", []⟩

/-- Characters matched by the word classes of the re module, restricted to
ASCII (the source passes Unicode text, which coincides on ASCII input). -/
def isWordChar (c : Char) : Bool :=
  c.isAlphanum || c == '_'

/-- Characters matched by the whitespace class of the re module (ASCII). -/
def isSpaceChar (c : Char) : Bool :=
  c == ' ' || c == '\t' || c == '\n' || c == '\r' || c == '\x0b' || c == '\x0c'

/-- Abstract syntax of the regular expression subset used by the patterns
in scope: character predicates, concatenation, prioritized alternation,
greedy star, capturing groups and word boundaries. -/
inductive Regex where
  | eps
  | pred (p : Char → Bool)
  | cat (r s : Regex)
  | alt (r s : Regex)
  | star (r : Regex)
  | group (r : Regex)
  | wordB

/-- Word-boundary test of the re module between the previous character and
the remainder of the input. -/
def wordBoundary (prev : Option Char) (rest : List Char) : Bool :=
  (match prev with | some c => isWordChar c | none => false)
    != (match rest.head? with | some c => isWordChar c | none => false)

/-- Syntactic size of a regex, used to compute a sufficient fuel bound
for the matcher. -/
def Regex.size : Regex → Nat
  | .eps => 1
  | .pred _ => 1
  | .wordB => 1
  | .cat r s => r.size + s.size + 1
  | .alt r s => r.size + s.size + 1
  | .star r => r.size + 1
  | .group r => r.size + 1

/-- Backtracking matcher: all ways to match r against the remainder of the
input, in the priority order of the re module (greedy, leftmost alternative
first). A result carries the new previous character, the unconsumed suffix
and the list of captured group contents in group order. Recursion is
structural on the fuel; every star unfolding must consume at least one
character, so any call path descends at most size-of-regex constructors
between unfoldings and fuel of the order input length times pattern size
(as supplied by matchHead below) never runs out on the patterns in scope. -/
def Regex.mmatch : Nat → Regex → Option Char → List Char → List (Option Char × List Char × List (List Char))
  | 0, _, _, _ => []
  | fuel + 1, r, prev, rest =>
    match r with
    | .eps => [(prev, rest, [])]
    | .pred p =>
        (match rest with
         | [] => []
         | c :: cs => if p c then [(some c, cs, [])] else [])
    | .cat r1 r2 =>
        (Regex.mmatch fuel r1 prev rest).flatMap (fun res =>
          (Regex.mmatch fuel r2 res.1 res.2.1).map
            (fun res2 => (res2.1, res2.2.1, res.2.2 ++ res2.2.2)))
    | .alt r1 r2 =>
        Regex.mmatch fuel r1 prev rest ++ Regex.mmatch fuel r2 prev rest
    | .star r1 =>
        (((Regex.mmatch fuel r1 prev rest).filter
            (fun res => res.2.1.length < rest.length)).flatMap
          (fun res => (Regex.mmatch fuel (.star r1) res.1 res.2.1).map
            (fun res2 => (res2.1, res2.2.1, res.2.2 ++ res2.2.2))))
        ++ [(prev, rest, [])]
    | .group r1 =>
        (Regex.mmatch fuel r1 prev rest).map (fun res =>
          (res.1, res.2.1, (rest.take (rest.length - res.2.1.length)) :: res.2.2))
    | .wordB =>
        if wordBoundary prev rest then [(prev, rest, [])] else []

/-- Compiled pattern: the syntax tree together with its number of capturing
groups, which decides what findall returns per match. -/
structure CompiledRegex where
  re : Regex
  groups : Nat

/-- Leftmost match of the compiled pattern at the current position, if any. -/
def matchHead (c : CompiledRegex) (prev : Option Char) (rest : List Char) :
    Option (Option Char × List Char × List (List Char)) :=
  (Regex.mmatch ((rest.length + 2) * (c.re.size + 2)) c.re prev rest).head?

/-- Scanning loop of Pattern.findall: non-overlapping leftmost matches from
left to right; after a zero-width match the scan advances one character.
With exactly one capturing group the captured text is recorded, otherwise
the whole match, as in the re module. -/
def findallGo (c : CompiledRegex) : Nat → Option Char → List Char → List String
  | 0, _, _ => []
  | fuel + 1, prev, rest =>
    match matchHead c prev rest with
    | some (p2, rest2, caps) =>
        let matched := rest.take (rest.length - rest2.length)
        let res := if c.groups == 1 then String.mk (caps.headD []) else String.mk matched
        if rest2.length < rest.length then
          res :: findallGo c fuel p2 rest2
        else
          match rest with
          | [] => [res]
          | ch :: rest3 => res :: findallGo c fuel (some ch) rest3
    | none =>
        match rest with
        | [] => []
        | ch :: rest3 => findallGo c fuel (some ch) rest3

/-- Pattern.findall(s, pos): scan s from character offset pos; the word
boundary at pos still sees the character before pos, as in the re module. -/
def findallFrom (c : CompiledRegex) (s : String) (pos : Nat) : List String :=
  let cs := s.data
  let rest := cs.drop pos
  findallGo c (rest.length + 1) ((cs.take pos).getLast?) rest

/-- Character-class escapes of the re module (inside square brackets):
class shorthands, control characters, and punctuation standing for itself;
unknown alphanumeric escapes fail to compile. -/
def classEscape (c : Char) : Option (Char → Bool) :=
  match c with
  | 'd' => some Char.isDigit
  | 'D' => some (fun ch => !ch.isDigit)
  | 'w' => some isWordChar
  | 'W' => some (fun ch => !isWordChar ch)
  | 's' => some isSpaceChar
  | 'S' => some (fun ch => !isSpaceChar ch)
  | 'n' => some (fun ch => ch == '\n')
  | 't' => some (fun ch => ch == '\t')
  | 'r' => some (fun ch => ch == '\r')
  | _ => if c.isAlphanum then none else some (fun ch => ch == c)

/-- Escapes outside character classes: class shorthands, the word boundary,
control characters, and escaped punctuation. -/
def atomEscape (c : Char) : Option Regex :=
  match c with
  | 'b' => some .wordB
  | 'd' => some (.pred Char.isDigit)
  | 'D' => some (.pred (fun ch => !ch.isDigit))
  | 'w' => some (.pred isWordChar)
  | 'W' => some (.pred (fun ch => !isWordChar ch))
  | 's' => some (.pred isSpaceChar)
  | 'S' => some (.pred (fun ch => !isSpaceChar ch))
  | 'n' => some (.pred (fun ch => ch == '\n'))
  | 't' => some (.pred (fun ch => ch == '\t'))
  | 'r' => some (.pred (fun ch => ch == '\r'))
  | _ => if c.isAlphanum then none else some (.pred (fun ch => ch == c))

/-- Parser for the body of a character class, accumulating a predicate;
supports literals, ranges and class escapes. -/
def parseClassItems : Nat → List Char → (Char → Bool) → Option ((Char → Bool) × List Char)
  | 0, _, _ => none
  | fuel + 1, cs, acc =>
    match cs with
    | [] => none
    | ']' :: rest => some (acc, rest)
    | '\\' :: e :: rest =>
        match classEscape e with
        | none => none
        | some p => parseClassItems fuel rest (fun ch => acc ch || p ch)
    | a :: '-' :: b :: rest =>
        if b == ']' then
          parseClassItems fuel (']' :: rest) (fun ch => acc ch || ch == a || ch == '-')
        else if b == '\\' then none
        else parseClassItems fuel rest (fun ch => acc ch || (a ≤ ch && ch ≤ b))
    | a :: rest =>
        if a == '\\' then none
        else parseClassItems fuel rest (fun ch => acc ch || ch == a)

/-- Parse a nonempty run of decimal digits. -/
def parseNum (cs : List Char) : Option (Nat × List Char) :=
  let ds := cs.takeWhile Char.isDigit
  if ds.isEmpty then none
  else some (ds.foldl (fun n c => n * 10 + (c.toNat - 48)) 0, cs.drop ds.length)

/-- Repetition of a regex an exact number of times. -/
def repExact (r : Regex) : Nat → Regex
  | 0 => .eps
  | n + 1 => .cat r (repExact r n)

/-- Greedy repetition of a regex up to a bound, preferring more copies. -/
def repUpTo (r : Regex) : Nat → Regex
  | 0 => .eps
  | n + 1 => .alt (.cat r (repUpTo r n)) .eps

/-- Detects a stacked quantifier (including the lazy forms), which the
supported subset rejects. -/
def quantFollows : List Char → Bool
  | c :: _ => c == '?' || c == '*' || c == '+'
  | [] => false

/-- Apply an optional greedy quantifier following an atom. -/
def applyQuant (r : Regex) (cs : List Char) : Option (Regex × List Char) :=
  match cs with
  | '*' :: rest => if quantFollows rest then none else some (.star r, rest)
  | '+' :: rest => if quantFollows rest then none else some (.cat r (.star r), rest)
  | '?' :: rest => if quantFollows rest then none else some (.alt r .eps, rest)
  | '\x7b' :: rest =>
      match parseNum rest with
      | none => none
      | some (lo, rest1) =>
        match rest1 with
        | '\x7d' :: rest2 =>
            if quantFollows rest2 then none else some (repExact r lo, rest2)
        | ',' :: rest2 =>
            match parseNum rest2 with
            | none => none
            | some (hi, rest3) =>
              match rest3 with
              | '\x7d' :: rest4 =>
                  if lo ≤ hi && !quantFollows rest4 then
                    some (.cat (repExact r lo) (repUpTo r (hi - lo)), rest4)
                  else none
              | _ => none
        | _ => none
  | _ => some (r, cs)

mutual
/-- Parse an alternation, the top level of a pattern or group body. -/
def parseAlt : Nat → List Char → Option (Regex × Nat × List Char)
  | 0, _ => none
  | fuel + 1, cs =>
    match parseSeq fuel cs with
    | none => none
    | some (r1, g1, cs1) =>
      match cs1 with
      | '|' :: rest =>
        match parseAlt fuel rest with
        | none => none
        | some (r2, g2, cs2) => some (.alt r1 r2, g1 + g2, cs2)
      | _ => some (r1, g1, cs1)
/-- Parse a concatenation of quantified atoms up to a bar, a closing
parenthesis or the end of the pattern. -/
def parseSeq : Nat → List Char → Option (Regex × Nat × List Char)
  | 0, _ => none
  | fuel + 1, cs =>
    match cs with
    | [] => some (.eps, 0, [])
    | '|' :: _ => some (.eps, 0, cs)
    | ')' :: _ => some (.eps, 0, cs)
    | _ =>
      match parseAtomQ fuel cs with
      | none => none
      | some (r1, g1, cs1) =>
        match parseSeq fuel cs1 with
        | none => none
        | some (r2, g2, cs2) => some (.cat r1 r2, g1 + g2, cs2)
/-- Parse one atom together with an optional quantifier. -/
def parseAtomQ : Nat → List Char → Option (Regex × Nat × List Char)
  | 0, _ => none
  | fuel + 1, cs =>
    match parseAtom fuel cs with
    | none => none
    | some (r, g, cs1) =>
      match applyQuant r cs1 with
      | none => none
      | some (r2, cs2) => some (r2, g, cs2)
/-- Parse one atom: a group, a character class, a dot, an escape or a
literal character. Anchors and the extension syntax beyond the
non-capturing group are outside the supported subset. -/
def parseAtom : Nat → List Char → Option (Regex × Nat × List Char)
  | 0, _ => none
  | fuel + 1, cs =>
    match cs with
    | '(' :: '?' :: ':' :: rest =>
        (match parseAlt fuel rest with
         | some (r, g, ')' :: cs2) => some (r, g, cs2)
         | _ => none)
    | '(' :: '?' :: _ => none
    | '(' :: rest =>
        (match parseAlt fuel rest with
         | some (r, g, ')' :: cs2) => some (.group r, g + 1, cs2)
         | _ => none)
    | '[' :: '^' :: rest =>
        (match parseClassItems fuel rest (fun _ => false) with
         | some (p, cs1) => some (.pred (fun ch => !p ch), 0, cs1)
         | none => none)
    | '[' :: rest =>
        (match parseClassItems fuel rest (fun _ => false) with
         | some (p, cs1) => some (.pred p, 0, cs1)
         | none => none)
    | '.' :: rest => some (.pred (fun ch => ch != '\n'), 0, rest)
    | '\\' :: e :: rest =>
        (match atomEscape e with
         | some r => some (r, 0, rest)
         | none => none)
    | c :: rest =>
        if c == '|' || c == ')' || c == '(' || c == '[' || c == '\\' ||
            c == '*' || c == '+' || c == '?' || c == '^' || c == '$' || c == '\x7b' then
          none
        else some (.pred (fun ch => ch == c), 0, rest)
    | [] => none
end

/-- Embedding of re.compile for the supported pattern subset: returns the
syntax tree and group count, or none when the pattern fails to compile
(for example on an unbalanced parenthesis, mirroring re.error). -/
def compileRegex (pattern : String) : Option CompiledRegex :=
  match parseAlt (pattern.length * 4 + 16) pattern.data with
  | some (r, g, []) => some ⟨r, g⟩
  | _ => none

/-- Pattern string for absolute URLs from lines 176 and 231 of
src/jirarecon.py. -/
def urlPatternStr : String :=
  "https?://(?:[-\\w.]|(?:%[\\da-fA-F]\x7b2\x7d))+(?:/[-\\w._~:/?#[\\]@!$&\x27()*+,;=]*)?"

/-- Pattern string for dotted-quad IPv4 addresses from line 180 of
src/jirarecon.py. -/
def ipPatternStr : String :=
  "\\b(?:\\d\x7b1,3\x7d\\.)\x7b3\x7d\\d\x7b1,3\x7d\\b"

/-- Compiled URL pattern (the compilation succeeds; the default is inert). -/
def url_pattern : CompiledRegex :=
  (compileRegex urlPatternStr).getD ⟨.eps, 0⟩

/-- Compiled IPv4 pattern. -/
def ip_pattern : CompiledRegex :=
  (compileRegex ipPatternStr).getD ⟨.eps, 0⟩

/-- Embedding of extract_urls_and_ips (lines 171 to 183): on empty (falsy)
text return two empty lists, otherwise findall with each fixed pattern. All
call sites in scope pass a string, so the argument is a String here. -/
def extract_urls_and_ips (text : String) : List String × List String :=
  if text.isEmpty then ([], [])
  else (findallFrom url_pattern text 0, findallFrom ip_pattern text 0)

/-- Model of the Python idiom sorted(list(s)) for a set s collected from a
list: the distinct elements in increasing lexicographic string order. -/
def py_sorted_set (l : List String) : List String :=
  (l.dedup).insertionSort (· ≤ ·)

/-- Embedding of collect_urls_and_ips (lines 185 to 207): for every fetched
item, str(description or "") and str(comments or "") are concatenated with
a space, both fixed patterns are applied, the matches are pooled into two
sets across all items, and both sets are returned as sorted lists. The dict
iteration order is the insertion order of the fetched map, modelled by the
list order; the sorted set output is independent of it. -/
def collect_urls_and_ips (fetched : List (String × Details)) : List String × List String :=
  let step := fun (acc : List String × List String) (item : String × Details) =>
    let description := pyStr (pyOr item.2.description (Json.str ""))
    let comments := pyStr (pyOr (Json.arr item.2.comments) (Json.str ""))
    let found := extract_urls_and_ips (description ++ " " ++ comments)
    (acc.1 ++ found.1, acc.2 ++ found.2)
  let pooled := fetched.foldl step ([], [])
  (py_sorted_set pooled.1, py_sorted_set pooled.2)

/-- Embedding of the pagination loop of search_keyword (lines 459 to 477).
The transport maps a start offset to the observable outcome of the request
at that offset; none models a raised request exception. Every exceptional
or non-200 outcome breaks the loop and keeps what was accumulated; after a
nonempty batch the loop stops when the new offset is at least the decoded
total, which defaults to 0 when the key is absent. Fuel replaces the
unbounded while loop; an exhausted fuel returns the accumulation, and the
theorems below quantify over or fix sufficient fuel. -/
def search_keyword_go (transport : Nat → Option HttpResponse) : Nat → Nat → List Json → List Json
  | 0, _, found => found
  | fuel + 1, start_at, found =>
    match transport start_at with
    | none => found
    | some resp =>
      if resp.status ≠ 200 then found
      else
        match resp.body with
        | none => found
        | some data =>
          match pyContains "issues" data with
          | .error _ => found
          | .ok false => found
          | .ok true =>
            match pyIndex data "issues" with
            | .error _ => found
            | .ok issues =>
              match pyIter issues with
              | .error _ => found
              | .ok items =>
                match items.mapM (fun item => pyIndex item "key") with
                | .error _ => found
                | .ok batch =>
                  if batch.isEmpty then found
                  else
                    let found2 := found ++ batch
                    let start2 := start_at + batch.length
                    match pyGet data "total" (Json.num 0) with
                    | .error _ => found2
                    | .ok total =>
                      match pyGe start2 total with
                      | .error _ => found2
                      | .ok true => found2
                      | .ok false => search_keyword_go transport fuel start2 found2
/-- Embedding of search_keyword (lines 453 to 478): run the pagination loop
from offset 0 with an empty accumulator. -/
def search_keyword (transport : Nat → Option HttpResponse) (fuel : Nat) : List Json :=
  search_keyword_go transport fuel 0 []

/-- Embedding of the comments extraction statement of fetch_issue_data
(lines 489 to 490): the containment test uses the defaulted fields value,
then the subscript chain and the comprehension may each raise. -/
def commentsStep (data : Json) : Except Unit (Option (List Json)) := do
  let f ← pyGet data "fields" (Json.obj [])
  let b ← pyContains "comment" f
  if b then
    let f2 ← pyIndex data "fields"
    let cm ← pyIndex f2 "comment"
    let cs ← pyIndex cm "comments"
    let items ← pyIter cs
    let bodies ← items.mapM (fun c => pyIndex c "body")
    pure (some bodies)
  else
    pure none

/-- Embedding of the body of the try block of fetch_issue_data after a
decoded JSON value is available (lines 487 to 490): the three assignments
run in order and the first raised exception keeps every assignment already
made, because the except clause only passes. -/
def extractDetails (data : Json) : Details :=
  match pyGet data "fields" (Json.obj []) >>= (fun f => pyGet f "summary" (Json.str "N/A")) with
  | .error _ => detailsDefault
  | .ok s =>
    let d1 : Details := { detailsDefault with summary := s }
    match pyGet data "fields" (Json.obj []) >>= (fun f => pyGet f "description" (Json.str "")) with
    | .error _ => d1
    | .ok desc =>
      let d2 : Details := { d1 with description := desc }
      match commentsStep data with
      | .error _ => d2
      | .ok none => d2
      | .ok (some bodies) => { d2 with comments := bodies }

/-- Embedding of fetch_issue_data (lines 480 to 493). The status code is
never inspected by the source; a raised request exception or a body that
fails to decode leaves the default details. The function always returns the
pair of the same identifier and a record with the three fixed keys. -/
def fetch_issue_data (transport : String → Option HttpResponse) (issue_id : String) :
    String × Details :=
  match transport issue_id with
  | none => (issue_id, detailsDefault)
  | some resp =>
    match resp.body with
    | none => (issue_id, detailsDefault)
    | some data => (issue_id, extractDetails data)

/-- Embedding of the concurrent fetch stage of handle_jira (lines 1050 to
1061): every candidate is submitted to fetch_issue_data and every future
result is stored under its identifier. The completion order of the pool is
nondeterministic, but each key is written exactly once with a value that
depends only on its own request, so the resulting map is the pointwise
image of the candidate list. -/
def fetch_all (transport : String → Option HttpResponse) (candidates : List String) :
    List (String × Details) :=
  candidates.map (fun iid => fetch_issue_data transport iid)

/-- Embedding of the dict merge of check_credentials lines 510 to 511:
copy the builtin table, then update with the override table. Existing keys
keep their position and take the override value; new override keys are
appended in override order. -/
def dict_update (base override : List (String × String)) : List (String × String) :=
  base.map (fun kv => (kv.1, ((override.lookup kv.1).getD kv.2)))
    ++ override.filter (fun kv => (base.lookup kv.1).isNone)

/-- Embedding of the compilation loop of check_credentials lines 512 to
517: each pattern is compiled and a rule whose pattern fails to compile is
dropped, never propagated. -/
def compile_rules (merged : List (String × String)) : List (String × CompiledRegex) :=
  merged.filterMap (fun kv => (compileRegex kv.2).map (fun c => (kv.1, c)))

/-- Description matches of one issue (lines 527 to 529): every rule scans
str(description) when the description is truthy. The second positional
argument of Pattern.findall in the source is re.UNICODE, whose integer
value 32 is the scan start offset, so matching starts at character 32. -/
def d_match (compiled : List (String × CompiledRegex)) (data : Details) : List String :=
  compiled.flatMap (fun rule =>
    if pyTruthy data.description then findallFrom rule.2 (pyStr data.description) 32 else [])

/-- Comment matches of one issue (lines 527 and 530 to 532), with the same
offset 32 passed as the findall position. -/
def c_match (compiled : List (String × CompiledRegex)) (data : Details) : List String :=
  compiled.flatMap (fun rule =>
    data.comments.flatMap (fun comment =>
      if pyTruthy comment then findallFrom rule.2 (pyStr comment) 32 else []))

/-- Embedding of check_credentials (lines 509 to 538): merge the builtin
and override rule tables, compile them dropping invalid patterns, scan
every fetched issue, and record an entry only when a match exists, holding
the deduplicated description and comment match lists (list(set(..)) in the
source; the model uses List.dedup, whose order stands in for the arbitrary
set iteration order). -/
def check_credentials (regexes custom_rules : List (String × String))
    (fetched : List (String × Details)) : List (String × (List String × List String)) :=
  let compiled := compile_rules (dict_update regexes custom_rules)
  fetched.filterMap (fun item =>
    let d := d_match compiled item.2
    let c := c_match compiled item.2
    if d.isEmpty && c.isEmpty then none
    else some (item.1, (d.dedup, c.dedup)))

/-- Model of Python set.update on an insertion-ordered carrier: each new
element is appended only when not already present. -/
def set_update (s : List Json) (new : List Json) : List Json :=
  new.foldl (fun acc k => if k ∈ acc then acc else acc ++ [k]) s

/-- Embedding of the keyword search stage of handle_jira (lines 1026 to
1036): one search_keyword query per keyword, all result key lists unioned
into the found_issue_keys set. The as_completed order is nondeterministic;
the model fixes keyword order, and the properties proved below (membership
and freedom from duplicates) do not depend on it. -/
def search_all_keywords (transport : String → Nat → Option HttpResponse)
    (fuel : Nat) (keywords : List String) : List Json :=
  keywords.foldl (fun acc kw => set_update acc (search_keyword (transport kw) fuel)) []

/-- Entry of the found_issues list built by search_project_keywords. -/
structure FoundIssue where
  key : Json
  summary : Json
  keyword : String
  description : Json
  comments : List Json
deriving DecidableEq

/-- Embedding of the per-issue body of search_project_keywords (lines 321
to 330): the dedup test on the key runs first; when the key is new the
entry fields are computed by defaulted get chains, any of which may raise.
The source evaluates the defaulted fields lookup once per entry value; a
single shared lookup is identical because the lookups are pure. -/
def spk_issue_step (kw : String) (found : List FoundIssue) (issue : Json) :
    Except Unit (List FoundIssue) :=
  match pyGet issue "key" (Json.str "") with
  | .error e => .error e
  | .ok issue_key =>
    if issue_key ∈ found.map (fun item => item.key) then
      .ok found
    else
      match pyGet issue "fields" (Json.obj []) with
      | .error e => .error e
      | .ok fields =>
        match pyGet fields "summary" (Json.str "") with
        | .error e => .error e
        | .ok summary =>
          match pyGet fields "description" (Json.str "") with
          | .error e => .error e
          | .ok description =>
            match pyGet fields "comment" (Json.obj []) with
            | .error e => .error e
            | .ok comment =>
              match pyGet comment "comments" (Json.arr []) with
              | .error e => .error e
              | .ok commentsVal =>
                match pyIter commentsVal with
                | .error e => .error e
                | .ok items =>
                  match items.mapM (fun c => pyGet c "body" (Json.str "")) with
                  | .error e => .error e
                  | .ok bodies =>
                    .ok (found ++ [⟨issue_key, summary, kw, description, bodies⟩])

/-- Iteration over the decoded issues of one keyword query; a raised
exception aborts the remaining issues of this keyword and keeps the entries
appended so far, because the enclosing try covers the whole keyword body. -/
def spk_issues_go (kw : String) : List Json → List FoundIssue → List FoundIssue
  | [], found => found
  | issue :: rest, found =>
    match spk_issue_step kw found issue with
    | .error _ => found
    | .ok found2 => spk_issues_go kw rest found2

/-- Embedding of one keyword iteration of search_project_keywords (lines
311 to 333): a raised request, a non-200 status, a decode failure or a
malformed issues value each leave the accumulated list unchanged. -/
def spk_keyword (transport : String → Option HttpResponse) (found : List FoundIssue)
    (kw : String) : List FoundIssue :=
  match transport kw with
  | none => found
  | some resp =>
    if resp.status = 200 then
      match resp.body with
      | none => found
      | some data =>
        match pyGet data "issues" (Json.arr []) with
        | .error _ => found
        | .ok issuesVal =>
          match pyIter issuesVal with
          | .error _ => found
          | .ok issues => spk_issues_go kw issues found
    else found

/-- Embedding of search_project_keywords (lines 304 to 344): one request
per keyword, accumulating deduplicated found issues. -/
def search_project_keywords (transport : String → Option HttpResponse)
    (keywords : List String) : List FoundIssue :=
  keywords.foldl (fun found kw => spk_keyword transport found kw) []

/-- First projection of fetch_issue_data is always the queried identifier. -/
theorem fetch_issue_fst (t : String → Option HttpResponse) (i : String) :
    (fetch_issue_data t i).1 = i := by
  unfold fetch_issue_data
  rcases t i with _ | resp
  · rfl
  · rcases resp with ⟨st, _ | d⟩ <;> rfl

/-- Two bindings of the same key in a list with duplicate-free keys agree. -/
theorem nodup_keys_eq {α β : Type} {l : List (α × β)} (h : (l.map Prod.fst).Nodup)
    {a : α} {b c : β} (hb : (a, b) ∈ l) (hc : (a, c) ∈ l) : b = c := by
  induction l with
  | nil => cases hb
  | cons x xs ih =>
    simp only [List.map_cons, List.nodup_cons] at h
    rcases List.mem_cons.mp hb with hb1 | hb2 <;> rcases List.mem_cons.mp hc with hc1 | hc2
    · rw [← hb1] at hc1; exact (Prod.mk.injEq _ _ _ _).mp hc1.symm |>.2
    · exact absurd (List.mem_map.mpr ⟨(a, c), hc2, by rw [← hb1]⟩) h.1
    · exact absurd (List.mem_map.mpr ⟨(a, b), hb2, by rw [← hc1]⟩) h.1
    · exact ih h.2 hb2 hc2

/-- C1: the claim says that scanning the document text "password = s3cr3t"
with a rule set containing the rule password backslash-s star equals
backslash-s star group-of-non-space returns a set containing the matched
substring. The code passes re.UNICODE (integer 32) as the pos argument of
Pattern.findall, so the scan starts at offset 32 and returns nothing on
this 17-character text: the first conjunct evaluates check_credentials at
the failing input to the empty result, the second shows the same pattern
does match s3cr3t when scanned from offset 0 as the claim intends, and the
third shows the scan from offset 32 is what returns nothing. -/
theorem scan_offset_bug :
    check_credentials [] [("pw_rule", "password\\s*=\\s*(\\S+)")]
      [("ISSUE-1", ⟨Json.str "N/A", Json.str "password = s3cr3t", []⟩)] = [] ∧
    (compileRegex "password\\s*=\\s*(\\S+)").map
      (fun c => findallFrom c "password = s3cr3t" 0) = some ["s3cr3t"] ∧
    (compileRegex "password\\s*=\\s*(\\S+)").map
      (fun c => findallFrom c "password = s3cr3t" 32) = some [] :=
  ⟨by decide, by decide, by decide⟩

/-- C2 counterexample: with one candidate whose fetch fails (the transport
raises), the claim predicts a map with zero entries and the failed
candidate absent; the code returns a one-entry map in which the failed
candidate is present, bound to the default record. -/
theorem fetch_all_failed_candidate_present :
    (fetch_all (fun _ => none) ["A-1"]).length = 1 ∧
    List.lookup "A-1" (fetch_all (fun _ => none) ["A-1"]) = some detailsDefault :=
  ⟨rfl, rfl⟩

/-- C2 amended: the fetch stage returns one entry per candidate: the key
list of the result equals the candidate list, a candidate whose request
raises is present and bound to the default record, and every entry holds
exactly the record fetch_issue_data computes for its own key (so no entry
is corrupted and no failure aborts the batch). -/
theorem fetch_all_total_map :
    ∀ (transport : String → Option HttpResponse) (candidates : List String),
      ((fetch_all transport candidates).map Prod.fst = candidates) ∧
      (∀ iid, iid ∈ candidates → transport iid = none →
        (iid, detailsDefault) ∈ fetch_all transport candidates) ∧
      (∀ iid d, (iid, d) ∈ fetch_all transport candidates →
        d = (fetch_issue_data transport iid).2) := by
  intro t candidates
  refine ⟨?_, ?_, ?_⟩
  · induction candidates with
    | nil => rfl
    | cons a as ih =>
      simp only [fetch_all, List.map_cons] at ih ⊢
      rw [fetch_issue_fst, ih]
  · intro iid hmem hfail
    exact List.mem_map.mpr ⟨iid, hmem, by simp [fetch_issue_data, hfail]⟩
  · intro iid d hmem
    obtain ⟨a, _, heq⟩ := List.mem_map.mp hmem
    have ha : a = iid := by
      have := congrArg Prod.fst heq
      rwa [fetch_issue_fst] at this
    rw [← ha]
    exact (congrArg Prod.snd heq).symm

/-- Witness for the amended C2 theorem at a concrete failing transport. -/
theorem fetch_all_total_map_witness :
    ("A-404", detailsDefault) ∈ fetch_all (fun _ => none) ["A-404"] :=
  (fetch_all_total_map (fun _ => none) ["A-404"]).2.1 "A-404" (by simp) rfl

/-- C10 counterexample: a decoded body whose fields entry is
{"summary": "S", "comment": "zzz"} makes comment extraction raise (the
string has no subscriptable comments), which is a failure, yet the
returned record keeps the already-extracted summary "S" instead of the
all-default record the claim promises on any failure. -/
theorem fetch_issue_partial_record :
    fetch_issue_data
        (fun _ => some ⟨200, some (Json.obj [("fields",
          Json.obj [("summary", Json.str "S"), ("comment", Json.str "zzz")])])⟩)
        "A-1"
      = ("A-1", ⟨Json.str "S", Json.str "", []⟩) ∧
    commentsStep (Json.obj [("fields",
        Json.obj [("summary", Json.str "S"), ("comment", Json.str "zzz")])])
      = Except.error () :=
  ⟨by decide, rfl⟩

/-- C10 amended: the per-item fetch never raises and always returns the
pair of the same identifier and a record with the three fixed fields; the
record holds all defaults whenever the request raises or the body fails to
decode. On a decoded but malformed body, fields extracted before the first
raised error keep their values (see the counterexample). -/
theorem fetch_issue_shape :
    ∀ (transport : String → Option HttpResponse) (issue_id : String),
      ((fetch_issue_data transport issue_id).1 = issue_id) ∧
      (transport issue_id = none →
        fetch_issue_data transport issue_id = (issue_id, detailsDefault)) ∧
      (∀ resp, transport issue_id = some resp → resp.body = none →
        fetch_issue_data transport issue_id = (issue_id, detailsDefault)) := by
  intro t i
  refine ⟨fetch_issue_fst t i, ?_, ?_⟩
  · intro h; simp [fetch_issue_data, h]
  · intro resp h hb; simp [fetch_issue_data, h, hb]

/-- Witness for the amended C10 theorem at a raising transport. -/
theorem fetch_issue_shape_witness :
    fetch_issue_data (fun _ => none) "B-7" = ("B-7", detailsDefault) :=
  (fetch_issue_shape (fun _ => none) "B-7").2.1 rfl

/-- C9: a raised request or a non-200 status mid-pagination stops
enumeration and returns exactly the candidates accumulated so far, and an
empty candidate set flows through the fetch, scan and extraction stages to
empty results. -/
theorem enumeration_failure_partial :
    (∀ (t : Nat → Option HttpResponse) (fuel s : Nat) (found : List Json),
        t s = none → search_keyword_go t (fuel + 1) s found = found) ∧
    (∀ (t : Nat → Option HttpResponse) (fuel s : Nat) (found : List Json)
        (resp : HttpResponse),
        t s = some resp → resp.status ≠ 200 →
        search_keyword_go t (fuel + 1) s found = found) ∧
    (∀ t : String → Option HttpResponse, fetch_all t [] = []) ∧
    (∀ b o : List (String × String), check_credentials b o [] = []) ∧
    collect_urls_and_ips [] = ([], []) := by
  refine ⟨?_, ?_, fun _ => rfl, fun _ _ => rfl, rfl⟩
  · intro t fuel s found h
    simp [search_keyword_go, h]
  · intro t fuel s found resp h hne
    simp [search_keyword_go, h, hne]

/-- Witness for C9 at a transport that raises on the first page. -/
theorem enumeration_failure_partial_witness :
    search_keyword_go (fun _ => none) 1 0 [] = [] :=
  enumeration_failure_partial.1 (fun _ => none) 0 0 [] rfl

/-- C7: every entry of the scan result exposes deduplicated match lists
for both the description field and the comments field. -/
theorem matchset_dedup :
    ∀ (regexes custom_rules : List (String × String)) (fetched : List (String × Details))
      (id : String) (out : List String × List String),
      (id, out) ∈ check_credentials regexes custom_rules fetched →
      out.1.Nodup ∧ out.2.Nodup := by
  intro b o fetched id out hmem
  simp only [check_credentials] at hmem
  obtain ⟨item, _, hf⟩ := List.mem_filterMap.mp hmem
  by_cases hcond : (d_match (compile_rules (dict_update b o)) item.2).isEmpty
      && (c_match (compile_rules (dict_update b o)) item.2).isEmpty
  · rw [if_pos hcond] at hf; exact absurd hf (by simp)
  · rw [if_neg hcond] at hf
    obtain ⟨h1, h2⟩ : item.1 = id ∧
        ((d_match (compile_rules (dict_update b o)) item.2).dedup,
         (c_match (compile_rules (dict_update b o)) item.2).dedup) = out := by
      simpa [Prod.ext_iff] using Option.some.inj hf
    rw [← h2]
    exact ⟨List.nodup_dedup _, List.nodup_dedup _⟩

/-- Witness for C7 on a concrete scan result entry. -/
theorem matchset_dedup_witness :
    (["secret"], ([] : List String)).1.Nodup ∧ (["secret"], ([] : List String)).2.Nodup :=
  matchset_dedup [] [("r", "secret")]
    [("I1", ⟨Json.str "N/A", Json.str "0123456789abcdefghij0123456789ab secret", []⟩)]
    "I1" (["secret"], []) (by decide)

/-- C5: a fetched document whose description and comments produce zero rule
matches contributes no key to the scan result, and every key present in
the scan result carries at least one non-empty match list. -/
theorem scan_sparsity :
    (∀ (regexes custom_rules : List (String × String)) (fetched : List (String × Details))
        (id : String) (data : Details),
        (fetched.map Prod.fst).Nodup →
        (id, data) ∈ fetched →
        d_match (compile_rules (dict_update regexes custom_rules)) data = [] →
        c_match (compile_rules (dict_update regexes custom_rules)) data = [] →
        id ∉ (check_credentials regexes custom_rules fetched).map Prod.fst) ∧
    (∀ (regexes custom_rules : List (String × String)) (fetched : List (String × Details))
        (id : String) (out : List String × List String),
        (id, out) ∈ check_credentials regexes custom_rules fetched →
        out.1 ≠ [] ∨ out.2 ≠ []) := by
  constructor
  · intro b o fetched iid data hnodup hmem hd hc hkey
    obtain ⟨⟨id2, out⟩, hmem2, hfst⟩ := List.mem_map.mp hkey
    simp only at hfst
    simp only [check_credentials] at hmem2
    obtain ⟨item, hitem, hf⟩ := List.mem_filterMap.mp hmem2
    by_cases hcond : (d_match (compile_rules (dict_update b o)) item.2).isEmpty
        && (c_match (compile_rules (dict_update b o)) item.2).isEmpty
    · rw [if_pos hcond] at hf; exact absurd hf (by simp)
    · rw [if_neg hcond] at hf
      obtain ⟨h1, h2⟩ : item.1 = id2 ∧
          ((d_match (compile_rules (dict_update b o)) item.2).dedup,
           (c_match (compile_rules (dict_update b o)) item.2).dedup) = out := by
        simpa [Prod.ext_iff] using Option.some.inj hf
      have hitem2 : (iid, item.2) ∈ fetched := by rw [← hfst, ← h1]; exact hitem
      have hdata : item.2 = data := nodup_keys_eq hnodup hitem2 hmem
      rw [hdata, hd, hc] at hcond
      exact hcond (by simp)
  · intro b o fetched iid out hmem
    simp only [check_credentials] at hmem
    obtain ⟨item, _, hf⟩ := List.mem_filterMap.mp hmem
    by_cases hcond : (d_match (compile_rules (dict_update b o)) item.2).isEmpty
        && (c_match (compile_rules (dict_update b o)) item.2).isEmpty
    · rw [if_pos hcond] at hf; exact absurd hf (by simp)
    · rw [if_neg hcond] at hf
      obtain ⟨h1, h2⟩ : item.1 = iid ∧
          ((d_match (compile_rules (dict_update b o)) item.2).dedup,
           (c_match (compile_rules (dict_update b o)) item.2).dedup) = out := by
        simpa [Prod.ext_iff] using Option.some.inj hf
      rw [← h2]
      simp only [Bool.and_eq_true, List.isEmpty_iff, not_and_or] at hcond
      rcases hcond with hne | hne
      · exact Or.inl (by simpa [List.dedup_eq_nil] using hne)
      · exact Or.inr (by simpa [List.dedup_eq_nil] using hne)

/-- Witness for C5 with an empty rule table and one quiet document. -/
theorem scan_sparsity_witness :
    "I9" ∉ (check_credentials [] [] [("I9", detailsDefault)]).map Prod.fst :=
  scan_sparsity.1 [] [] [("I9", detailsDefault)] "I9" detailsDefault
    (by simp) (by simp) rfl rfl

/-- Lookup through the value-updating map of dict_update. -/
theorem lookup_map_override (base override : List (String × String)) (n : String) :
    (base.map (fun kv => (kv.1, ((override.lookup kv.1).getD kv.2)))).lookup n
      = (base.lookup n).map (fun v => (override.lookup n).getD v) := by
  induction base with
  | nil => rfl
  | cons kv bs ih =>
    obtain ⟨k, v⟩ := kv
    by_cases h : n = k
    · subst h; simp [List.lookup]
    · have hne : (n == k) = false := beq_eq_false_iff_ne.mpr h
      simp [List.lookup, hne, ih]

/-- Lookup in the appended fresh-key part of dict_update when the key is
absent from the base table. -/
theorem lookup_filter_base_none (base override : List (String × String)) (n : String)
    (h : base.lookup n = none) :
    (override.filter (fun kv => (base.lookup kv.1).isNone)).lookup n = override.lookup n := by
  induction override with
  | nil => rfl
  | cons kv os ih =>
    obtain ⟨k, v⟩ := kv
    by_cases hk : n = k
    · subst hk
      simp [List.filter, h, List.lookup]
    · have hne : (n == k) = false := beq_eq_false_iff_ne.mpr hk
      by_cases hbk : (base.lookup k).isNone
      · simp [List.filter, hbk, List.lookup, hne, ih]
      · simp [List.filter, hbk, List.lookup, hne, ih]

/-- Lookup distributes over list append as an Option.or. -/
theorem lookup_append_or {β : Type} (l1 l2 : List (String × β)) (n : String) :
    (l1 ++ l2).lookup n = ((l1.lookup n).or (l2.lookup n)) := by
  induction l1 with
  | nil => simp [List.lookup]
  | cons kv l1 ih =>
    obtain ⟨k, v⟩ := kv
    by_cases h : n = k
    · subst h; simp [List.lookup]
    · have hne : (n == k) = false := beq_eq_false_iff_ne.mpr h
      simp [List.lookup, hne, ih]

/-- C8: rule-set construction merges the builtin and override tables with
the override winning on name collisions (the lookup in the merged table is
the override lookup, falling back to the builtin lookup), the compiled rule
set contains only rules whose pattern compiles (invalid patterns are
dropped rather than escalated), every rule that does compile is kept, and
an unbalanced parenthesis is a concrete pattern that fails to compile. -/
theorem rule_set_construction :
    (∀ (base override : List (String × String)) (n : String),
        (dict_update base override).lookup n = (override.lookup n).or (base.lookup n)) ∧
    (∀ (merged : List (String × String)) (n : String) (c : CompiledRegex),
        (n, c) ∈ compile_rules merged →
        ∃ p, (n, p) ∈ merged ∧ compileRegex p = some c) ∧
    (∀ (merged : List (String × String)) (n p : String) (c : CompiledRegex),
        (n, p) ∈ merged → compileRegex p = some c → (n, c) ∈ compile_rules merged) ∧
    compileRegex "(" = none := by
  refine ⟨?_, ?_, ?_, rfl⟩
  · intro base override n
    unfold dict_update
    rw [lookup_append_or, lookup_map_override]
    cases hb : base.lookup n with
    | none =>
      rw [lookup_filter_base_none base override n hb]
      cases override.lookup n <;> rfl
    | some v =>
      cases ho : override.lookup n <;> simp [ho]
  · intro merged n c hmem
    obtain ⟨kv, hkv, hf⟩ := List.mem_filterMap.mp hmem
    cases hcomp : compileRegex kv.2 with
    | none => rw [hcomp] at hf; exact absurd hf (by simp)
    | some c2 =>
      rw [hcomp] at hf
      obtain ⟨h1, h2⟩ : kv.1 = n ∧ c2 = c := by
        simpa [Prod.ext_iff] using Option.some.inj hf
      exact ⟨kv.2, by rw [← h1]; exact hkv, by rw [hcomp, h2]⟩
  · intro merged n p c hmem hcomp
    exact List.mem_filterMap.mpr ⟨(n, p), hmem, by simp [hcomp]⟩

/-- Compiled form of a simple valid rule pattern, used by the witness. -/
def secretCompiled : CompiledRegex :=
  (compileRegex "secret").getD ⟨.eps, 0⟩

/-- Witness for C8: a valid rule survives compilation of a merged table. -/
theorem rule_set_construction_witness :
    ("r1", secretCompiled) ∈ compile_rules [("r1", "secret")] :=
  rule_set_construction.2.2.1 [("r1", "secret")] "r1" "secret" secretCompiled
    (by simp) rfl

/-- Set insertion preserves freedom from duplicates. -/
theorem set_update_nodup (s new : List Json) (h : s.Nodup) : (set_update s new).Nodup := by
  induction new generalizing s with
  | nil => exact h
  | cons k ks ih =>
    simp only [set_update, List.foldl_cons] at ih ⊢
    by_cases hk : k ∈ s
    · rw [if_pos hk]; exact ih s h
    · rw [if_neg hk]
      exact ih _ (h.append (List.nodup_singleton k) (by simp [List.disjoint_singleton, hk]))

/-- Membership in the result of a set update is membership in either side. -/
theorem set_update_mem (s new : List Json) (x : Json) :
    x ∈ set_update s new ↔ x ∈ s ∨ x ∈ new := by
  induction new generalizing s with
  | nil => simp [set_update]
  | cons k ks ih =>
    simp only [set_update, List.foldl_cons] at ih ⊢
    by_cases hk : k ∈ s
    · rw [if_pos hk, ih]
      simp only [List.mem_cons]
      constructor
      · rintro (h | h)
        · exact Or.inl h
        · exact Or.inr (Or.inr h)
      · rintro (h | rfl | h)
        · exact Or.inl h
        · exact Or.inl hk
        · exact Or.inr h
    · rw [if_neg hk, ih]
      simp only [List.mem_append, List.mem_singleton, List.mem_cons]
      tauto

/-- The keyword union fold preserves freedom from duplicates. -/
theorem search_fold_nodup (t : String → Nat → Option HttpResponse) (fuel : Nat) :
    ∀ (kws : List String) (acc : List Json), acc.Nodup →
      (kws.foldl (fun acc kw => set_update acc (search_keyword (t kw) fuel)) acc).Nodup := by
  intro kws
  induction kws with
  | nil => intro acc h; exact h
  | cons kw kws ih =>
    intro acc h
    simp only [List.foldl_cons]
    exact ih _ (set_update_nodup _ _ h)

/-- Membership in the keyword union fold. -/
theorem search_fold_mem (t : String → Nat → Option HttpResponse) (fuel : Nat) :
    ∀ (kws : List String) (acc : List Json) (x : Json),
      x ∈ kws.foldl (fun acc kw => set_update acc (search_keyword (t kw) fuel)) acc ↔
        x ∈ acc ∨ ∃ kw ∈ kws, x ∈ search_keyword (t kw) fuel := by
  intro kws
  induction kws with
  | nil => simp
  | cons kw kws ih =>
    intro acc x
    simp only [List.foldl_cons]
    rw [ih, set_update_mem]
    simp only [List.mem_cons]
    constructor
    · rintro ((h | h) | ⟨kw2, hkw2, h⟩)
      · exact Or.inl h
      · exact Or.inr ⟨kw, Or.inl rfl, h⟩
      · exact Or.inr ⟨kw2, Or.inr hkw2, h⟩
    · rintro (h | ⟨kw2, (rfl | hkw2), h⟩)
      · exact Or.inl (Or.inl h)
      · exact Or.inl (Or.inr h)
      · exact Or.inr ⟨kw2, hkw2, h⟩

/-- Shape of one successful per-issue step: it either leaves the list
unchanged (duplicate key or nothing) or appends one entry whose key was
not yet present. -/
theorem spk_issue_step_shape (kw : String) (found : List FoundIssue) (issue : Json)
    (found2 : List FoundIssue) (h : spk_issue_step kw found issue = .ok found2) :
    found2 = found ∨
      ∃ e : FoundIssue, found2 = found ++ [e] ∧
        e.key ∉ found.map (fun item => item.key) := by
  unfold spk_issue_step at h
  repeat' split at h
  all_goals try exact Except.noConfusion h
  · exact Or.inl (Except.ok.inj h).symm
  · refine Or.inr ⟨_, (Except.ok.inj h).symm, ?_⟩
    assumption

/-- The per-keyword issue loop preserves freedom from key duplicates. -/
theorem spk_issues_go_keys_nodup (kw : String) :
    ∀ (issues : List Json) (found : List FoundIssue),
      (found.map (fun item => item.key)).Nodup →
      ((spk_issues_go kw issues found).map (fun item => item.key)).Nodup := by
  intro issues
  induction issues with
  | nil => intro found h; exact h
  | cons issue rest ih =>
    intro found h
    simp only [spk_issues_go]
    cases hstep : spk_issue_step kw found issue with
    | error e => exact h
    | ok found2 =>
      rcases spk_issue_step_shape kw found issue found2 hstep with heq | ⟨e, heq, hke⟩
      · rw [heq]; exact ih found h
      · rw [heq]
        refine ih _ ?_
        rw [List.map_append]
        exact h.append (by simp) (by simp [List.disjoint_singleton, hke])

/-- One keyword iteration preserves freedom from key duplicates. -/
theorem spk_keyword_keys_nodup (t : String → Option HttpResponse)
    (found : List FoundIssue) (kw : String)
    (h : (found.map (fun item => item.key)).Nodup) :
    ((spk_keyword t found kw).map (fun item => item.key)).Nodup := by
  unfold spk_keyword
  repeat' split
  all_goals first
    | exact h
    | exact spk_issues_go_keys_nodup kw _ found h

/-- C6: the candidate set built by the keyword search stage has no
duplicate identifiers and is exactly the union of the per-keyword query
results (a candidate matched by several keywords appears once), and the
issue list of search_project_keywords likewise carries no duplicate keys. -/
theorem candidate_set_dedup :
    (∀ (transport : String → Nat → Option HttpResponse) (fuel : Nat)
        (keywords : List String),
        (search_all_keywords transport fuel keywords).Nodup) ∧
    (∀ (transport : String → Nat → Option HttpResponse) (fuel : Nat)
        (keywords : List String) (x : Json),
        x ∈ search_all_keywords transport fuel keywords ↔
          ∃ kw ∈ keywords, x ∈ search_keyword (transport kw) fuel) ∧
    (∀ (transport : String → Option HttpResponse) (keywords : List String),
        ((search_project_keywords transport keywords).map
          (fun item => item.key)).Nodup) := by
  refine ⟨?_, ?_, ?_⟩
  · intro t fuel keywords
    exact search_fold_nodup t fuel keywords [] List.nodup_nil
  · intro t fuel keywords x
    rw [search_all_keywords, search_fold_mem]
    simp
  · intro t keywords
    have haux : ∀ (kws : List String) (found : List FoundIssue),
        (found.map (fun item => item.key)).Nodup →
        ((kws.foldl (fun found kw => spk_keyword t found kw) found).map
          (fun item => item.key)).Nodup := by
      intro kws
      induction kws with
      | nil => intro found h; exact h
      | cons kw kws ih =>
        intro found h
        simp only [List.foldl_cons]
        exact ih _ (spk_keyword_keys_nodup t found kw h)
    exact haux keywords [] (by simp)

/-- Concrete one-keyword transport used by the C6 witness. -/
def kwWitnessTransport : String → Nat → Option HttpResponse := fun _ s =>
  match s with
  | 0 => some ⟨200, some (Json.obj
      [("issues", Json.arr [Json.obj [("key", Json.str "K-1")]]),
       ("total", Json.num 1)])⟩
  | _ + 1 => some ⟨200, some (Json.obj
      [("issues", Json.arr []), ("total", Json.num 1)])⟩

/-- Witness for C6: a concrete candidate found under a keyword is in the
unioned candidate set. -/
theorem candidate_set_dedup_witness :
    Json.str "K-1" ∈ search_all_keywords kwWitnessTransport 5 ["kw"] :=
  (candidate_set_dedup.2.1 kwWitnessTransport 5 ["kw"] (Json.str "K-1")).mpr
    ⟨"kw", by simp, by decide⟩

/-- Weak ordering plus freedom from duplicates gives strict ordering. -/
theorem pairwise_lt_of_le_ne {α : Type} [LinearOrder α] {l : List α}
    (hle : l.Pairwise (fun a b => a ≤ b)) (hnd : l.Nodup) :
    l.Pairwise (fun a b => a < b) := by
  induction l with
  | nil => exact List.Pairwise.nil
  | cons a xs ih =>
    rw [List.pairwise_cons] at hle ⊢
    rw [List.nodup_cons] at hnd
    refine ⟨fun b hb => lt_of_le_of_ne (hle.1 b hb) ?_, ih hle.2 hnd.2⟩
    intro heq
    exact hnd.1 (heq ▸ hb)

/-- Result of the sorted-set normalization is strictly increasing, hence
both sorted and free of duplicates. -/
theorem py_sorted_set_pairwise_lt (l : List String) :
    (py_sorted_set l).Pairwise (fun a b => a < b) := by
  have hs : (py_sorted_set l).Pairwise (fun a b => a ≤ b) :=
    List.sorted_insertionSort _ _
  have hn : (py_sorted_set l).Nodup :=
    (List.perm_insertionSort _ _).symm.nodup (List.nodup_dedup l)
  exact pairwise_lt_of_le_ne hs hn

/-- C4: the extraction aggregator returns the URLs and IPv4 addresses of
the pooled document texts as strictly increasing lists (deduplicated and
in lexicographic order), and on the concrete one-document round-trip input
it yields exactly the claimed pair. Reproducibility across runs on equal
input is immediate because the embedded aggregator is a pure function of
its argument. -/
theorem extraction_sorted_dedup :
    (collect_urls_and_ips
        [("K-1", ⟨Json.str "N/A", Json.str "visit http://a.b/c and 10.0.0.1", []⟩)]
      = (["http://a.b/c"], ["10.0.0.1"])) ∧
    (∀ fetched : List (String × Details),
        (collect_urls_and_ips fetched).1.Pairwise (fun a b => a < b) ∧
        (collect_urls_and_ips fetched).2.Pairwise (fun a b => a < b)) := by
  constructor
  · decide
  · intro fetched
    unfold collect_urls_and_ips
    exact ⟨py_sorted_set_pairwise_lt _, py_sorted_set_pairwise_lt _⟩

/-- A successful lookup makes the dict membership test true. -/
theorem lookup_any_key : ∀ (fs : List (String × Json)) (k : String) (v : Json),
    fs.lookup k = some v → fs.any (fun kv => kv.1 == k) = true := by
  intro fs k v h
  induction fs with
  | nil => simp [List.lookup] at h
  | cons kv fs ih =>
    obtain ⟨a, b⟩ := kv
    by_cases hk : k = a
    · subst hk; simp
    · have hne : (k == a) = false := beq_eq_false_iff_ne.mpr hk
      have hne2 : (a == k) = false := beq_eq_false_iff_ne.mpr (Ne.symm hk)
      simp only [List.lookup, hne] at h
      simp [List.any_cons, hne2, ih h]

/-- One unfolding of the pagination loop on a well-formed page whose total
decodes to the integer m (for an absent total the defaulted value is 0):
an empty batch stops, a reached total stops after extending, and otherwise
the loop continues at the advanced offset. -/
theorem search_keyword_go_step (transport : Nat → Option HttpResponse)
    (fs : List (String × Json)) (xs ks : List Json) (fuel s : Nat) (acc : List Json)
    (m : Int)
    (hresp : transport s = some ⟨200, some (Json.obj fs)⟩)
    (hissues : fs.lookup "issues" = some (Json.arr xs))
    (hkeys : xs.mapM (fun item => pyIndex item "key") = Except.ok ks)
    (htotal : (fs.lookup "total").getD (Json.num 0) = Json.num m) :
    search_keyword_go transport (fuel + 1) s acc =
      if ks.isEmpty then acc
      else if decide (m ≤ (s : Int) + (ks.length : Int)) then acc ++ ks
      else search_keyword_go transport fuel (s + ks.length) (acc ++ ks) := by
  have hcont : pyContains "issues" (Json.obj fs) = .ok true := by
    simp [pyContains, lookup_any_key fs "issues" (Json.arr xs) hissues]
  have hidx : pyIndex (Json.obj fs) "issues" = .ok (Json.arr xs) := by
    simp [pyIndex, hissues]
  have hit : pyIter (Json.arr xs) = .ok xs := rfl
  have htot2 : pyGet (Json.obj fs) "total" (Json.num 0) = .ok (Json.num m) := by
    simp [pyGet, htotal]
  simp only [search_keyword_go, hresp, hcont, hidx, hit, hkeys, htot2]
  by_cases hemp : ks.isEmpty
  · simp [hemp]
  · cases hd : decide (m ≤ (s : Int) + (ks.length : Int))
    · simp [hemp, pyGe, hd]
    · simp [hemp, pyGe, hd]

/-- One unfolding of the pagination loop on a page whose decoded total is
a value the integer comparison rejects (a malformed total such as a
string): the comparison raises after the batch was already accumulated, so
the loop stops with the items collected so far. -/
theorem search_keyword_go_step_malformed (transport : Nat → Option HttpResponse)
    (fs : List (String × Json)) (xs ks : List Json) (fuel s : Nat) (acc : List Json)
    (tj : Json)
    (hresp : transport s = some ⟨200, some (Json.obj fs)⟩)
    (hissues : fs.lookup "issues" = some (Json.arr xs))
    (hkeys : xs.mapM (fun item => pyIndex item "key") = Except.ok ks)
    (htotal : (fs.lookup "total").getD (Json.num 0) = tj)
    (hmal : ∀ n, pyGe n tj = Except.error ())
    (hne : ks ≠ []) :
    search_keyword_go transport (fuel + 1) s acc = acc ++ ks := by
  have hcont : pyContains "issues" (Json.obj fs) = .ok true := by
    simp [pyContains, lookup_any_key fs "issues" (Json.arr xs) hissues]
  have hidx : pyIndex (Json.obj fs) "issues" = .ok (Json.arr xs) := by
    simp [pyIndex, hissues]
  have hit : pyIter (Json.arr xs) = .ok xs := rfl
  have htot2 : pyGet (Json.obj fs) "total" (Json.num 0) = .ok tj := by
    simp [pyGet, htotal]
  simp only [search_keyword_go, hresp, hcont, hidx, hit, hkeys, htot2, hmal]
  simp [hne]

/-- Well-formed page at one offset: a 200 response whose body decodes to a
dict with a list of items carrying keys and an integer total equal to T. -/
def GoodPage (r : Option HttpResponse) (T : Nat) : Prop :=
  ∃ fs xs ks, r = some ⟨200, some (Json.obj fs)⟩ ∧
    fs.lookup "issues" = some (Json.arr xs) ∧
    xs.mapM (fun item => pyIndex item "key") = Except.ok ks ∧
    fs.lookup "total" = some (Json.num (T : Int))

/-- On a transport of well-formed pages with a common total T, the
pagination loop stops within the fuel bound: any two sufficient fuels give
the same result, because every continued iteration advances the offset by
at least one and the loop breaks once the offset reaches T. -/
theorem search_keyword_go_indep (transport : Nat → Option HttpResponse) (T : Nat)
    (hT : ∀ n, GoodPage (transport n) T) :
    ∀ (k s : Nat) (acc : List Json) (f1 f2 : Nat), T ≤ s + k → k < f1 → k < f2 →
      search_keyword_go transport f1 s acc = search_keyword_go transport f2 s acc := by
  intro k
  induction k with
  | zero =>
    intro s acc f1 f2 hTs hf1 hf2
    obtain ⟨a, rfl⟩ : ∃ a, f1 = a + 1 := ⟨f1 - 1, by omega⟩
    obtain ⟨b, rfl⟩ : ∃ b, f2 = b + 1 := ⟨f2 - 1, by omega⟩
    obtain ⟨fs, xs, ks, hresp, hiss, hkeys, htot⟩ := hT s
    rw [search_keyword_go_step transport fs xs ks a s acc (T : Int) hresp hiss hkeys
        (by rw [htot]; rfl),
      search_keyword_go_step transport fs xs ks b s acc (T : Int) hresp hiss hkeys
        (by rw [htot]; rfl)]
    by_cases hemp : ks.isEmpty
    · rw [if_pos hemp, if_pos hemp]
    · have hlen : 1 ≤ ks.length := by
        cases ks
        · simp at hemp
        · simp
      have hge : decide ((T : Int) ≤ (s : Int) + (ks.length : Int)) = true :=
        decide_eq_true (by omega)
      rw [if_neg hemp, if_neg hemp, if_pos hge, if_pos hge]
  | succ k ih =>
    intro s acc f1 f2 hTs hf1 hf2
    obtain ⟨a, rfl⟩ : ∃ a, f1 = a + 1 := ⟨f1 - 1, by omega⟩
    obtain ⟨b, rfl⟩ : ∃ b, f2 = b + 1 := ⟨f2 - 1, by omega⟩
    obtain ⟨fs, xs, ks, hresp, hiss, hkeys, htot⟩ := hT s
    rw [search_keyword_go_step transport fs xs ks a s acc (T : Int) hresp hiss hkeys
        (by rw [htot]; rfl),
      search_keyword_go_step transport fs xs ks b s acc (T : Int) hresp hiss hkeys
        (by rw [htot]; rfl)]
    by_cases hemp : ks.isEmpty
    · rw [if_pos hemp, if_pos hemp]
    · have hlen : 1 ≤ ks.length := by
        cases ks
        · simp at hemp
        · simp
      rw [if_neg hemp, if_neg hemp]
      by_cases hge : (T : Int) ≤ (s : Int) + (ks.length : Int)
      · have hd := decide_eq_true hge
        rw [if_pos hd, if_pos hd]
      · have hd := decide_eq_false hge
        rw [if_neg (by rw [hd]; exact Bool.false_ne_true),
          if_neg (by rw [hd]; exact Bool.false_ne_true)]
        exact ih (s + ks.length) (acc ++ ks) a b (by omega) (by omega) (by omega)

/-- C3 amended: on well-formed pages with a common reported total T the
pagination loop terminates once the cumulative offset reaches T or a page
is empty (formally, the result is the same for every sufficient fuel); and
when the total field is absent from the first response, the defaulted
total 0 makes the offset check succeed right after the first non-empty
batch, so enumeration returns exactly the first page instead of walking
the remaining pages; and when the decoded total is a value the comparison
rejects (malformed), the raised comparison stops the loop with the items
collected so far. -/
theorem pagination_termination :
    (∀ (transport : Nat → Option HttpResponse) (T : Nat),
        (∀ n, GoodPage (transport n) T) →
        ∀ f1 f2, T + 1 ≤ f1 → T + 1 ≤ f2 →
          search_keyword transport f1 = search_keyword transport f2) ∧
    (∀ (transport : Nat → Option HttpResponse) (fs : List (String × Json))
        (xs ks : List Json) (fuel : Nat),
        transport 0 = some ⟨200, some (Json.obj fs)⟩ →
        fs.lookup "issues" = some (Json.arr xs) →
        fs.lookup "total" = none →
        xs.mapM (fun item => pyIndex item "key") = Except.ok ks →
        ks ≠ [] →
        search_keyword transport (fuel + 1) = ks) ∧
    (∀ (transport : Nat → Option HttpResponse) (fs : List (String × Json))
        (xs ks : List Json) (fuel : Nat) (tj : Json),
        transport 0 = some ⟨200, some (Json.obj fs)⟩ →
        fs.lookup "issues" = some (Json.arr xs) →
        fs.lookup "total" = some tj →
        (∀ n, pyGe n tj = Except.error ()) →
        xs.mapM (fun item => pyIndex item "key") = Except.ok ks →
        ks ≠ [] →
        search_keyword transport (fuel + 1) = ks) := by
  refine ⟨?_, ?_, ?_⟩
  · intro transport T hT f1 f2 hf1 hf2
    exact search_keyword_go_indep transport T hT T 0 [] f1 f2 (by omega) (by omega) (by omega)
  · intro transport fs xs ks fuel hresp hiss habs hkeys hne
    unfold search_keyword
    rw [search_keyword_go_step transport fs xs ks fuel 0 [] 0 hresp hiss hkeys
        (by rw [habs]; rfl)]
    rw [if_neg (by simp [hne]), if_pos (decide_eq_true (by omega))]
    simp
  · intro transport fs xs ks fuel tj hresp hiss hmaltot hmal hkeys hne
    unfold search_keyword
    rw [search_keyword_go_step_malformed transport fs xs ks fuel 0 [] tj hresp hiss hkeys
        (by rw [hmaltot]; rfl) hmal hne]
    simp

/-- Transport for the C3 counterexample: page 0 returns two items and no
total field, page 2 returns one more item, later pages are empty. -/
def absentTotalPages : Nat → Option HttpResponse := fun s =>
  match s with
  | 0 => some ⟨200, some (Json.obj [("issues", Json.arr
      [Json.obj [("key", Json.str "PROJ-1")], Json.obj [("key", Json.str "PROJ-2")]])])⟩
  | 2 => some ⟨200, some (Json.obj [("issues", Json.arr
      [Json.obj [("key", Json.str "PROJ-3")]])])⟩
  | _ => some ⟨200, some (Json.obj [("issues", Json.arr [])])⟩

/-- C3 counterexample: with the total field absent, the claim says the
loop keeps paging on the empty-page condition alone and collects every
non-empty page, so PROJ-3 from the second non-empty page should be
collected; the code stops after the first page (under any fuel), and the
third conjunct shows the page at the next offset was indeed non-empty. -/
theorem pagination_absent_total_stops_early :
    search_keyword absentTotalPages 10 = [Json.str "PROJ-1", Json.str "PROJ-2"] ∧
    search_keyword absentTotalPages 100 = [Json.str "PROJ-1", Json.str "PROJ-2"] ∧
    absentTotalPages 2 = some ⟨200, some (Json.obj [("issues", Json.arr
      [Json.obj [("key", Json.str "PROJ-3")]])])⟩ :=
  ⟨by decide, by decide, rfl⟩

/-- Transport with one non-empty page and no total field, for the witness. -/
def absentTotalOnePage : Nat → Option HttpResponse := fun s =>
  match s with
  | 0 => some ⟨200, some (Json.obj [("issues", Json.arr
      [Json.obj [("key", Json.str "X-1")]])])⟩
  | _ + 1 => some ⟨200, some (Json.obj [("issues", Json.arr [])])⟩

/-- Witness for the amended C3 theorem on a concrete absent-total page. -/
theorem pagination_termination_witness :
    search_keyword absentTotalOnePage 3 = [Json.str "X-1"] :=
  pagination_termination.2.1 absentTotalOnePage
    [("issues", Json.arr [Json.obj [("key", Json.str "X-1")]])]
    [Json.obj [("key", Json.str "X-1")]] [Json.str "X-1"] 2
    rfl rfl rfl rfl (by simp)
